import Mathlib

/-!
Verification of the pogreb key-only store (segment record codec, segment
iterator, index/datalog interaction of the engine operations, and the
open/close lifecycle) against its natural-language specification.

Bytes are modelled as `Nat` (values `< 256` where produced by the code),
byte strings as `List Nat`, machine integers as `Nat` with explicit
`% 2^w` where the source truncates.
-/

set_option autoImplicit false

namespace Pogreb

/-- Error values of the package.  Distinct constructors model the distinct
Go error values: `ErrIterationDone`, `errCorrupted`, `errKeyTooLarge`,
`errLocked` (errors file), and `io.EOF` / `io.ErrUnexpectedEOF` from the
standard library, plus a generic I/O failure used for the modelled
filesystem collaborators. -/
inductive Err where
  | iterationDone
  | corrupted
  | keyTooLarge
  | locked
  | eof
  | unexpectedEOF
  | ioFailure
  deriving DecidableEq

/-- MaxKeyLength from the source: `math.MaxUint16`. -/
def MaxKeyLength : Nat := 65535

/-! ## CRC32 (IEEE), `hash/crc32.ChecksumIEEE` -/

/-- The reflected IEEE polynomial used by `crc32.ChecksumIEEE`. -/
def crc32Poly : Nat := 0xEDB88320

/-- One shift step of the reflected CRC32 algorithm. -/
def crc32Step (c : Nat) : Nat :=
  if c % 2 = 1 then (c / 2) ^^^ crc32Poly else c / 2

/-- Fold one byte into the CRC32 state (eight shift steps). -/
def crc32Byte (c b : Nat) : Nat :=
  crc32Step (crc32Step (crc32Step (crc32Step
    (crc32Step (crc32Step (crc32Step (crc32Step (c ^^^ b % 256))))))))

/-- `crc32.ChecksumIEEE`: initial value `0xFFFFFFFF`, per-byte update,
final complement. -/
def crc32 (data : List Nat) : Nat :=
  (data.foldl crc32Byte 0xFFFFFFFF) ^^^ 0xFFFFFFFF

/-! ## Little-endian helpers (`encoding/binary.LittleEndian`) -/

/-- `binary.LittleEndian.PutUint16`: the two bytes of `n % 2^16`. -/
def le16Bytes (n : Nat) : List Nat := [n % 256, n / 256 % 256]

/-- `binary.LittleEndian.PutUint32`: the four bytes of `n % 2^32`. -/
def le32Bytes (n : Nat) : List Nat :=
  [n % 256, n / 256 % 256, n / 65536 % 256, n / 16777216 % 256]

/-- `binary.LittleEndian.Uint16` of the first two bytes of a list. -/
def le16 (l : List Nat) : Nat := l.getD 0 0 + 256 * l.getD 1 0

/-- `binary.LittleEndian.Uint32` of the first four bytes of a list. -/
def le32 (l : List Nat) : Nat :=
  l.getD 0 0 + 256 * l.getD 1 0 + 65536 * l.getD 2 0 + 16777216 * l.getD 3 0

/-! ## Record codec (segment.go) -/

/-- `encodedRecordSize(kvSize) = 2 + kvSize + 4` (key size, key, crc32). -/
def encodedRecordSize (kvSize : Nat) : Nat := 2 + kvSize + 4

/-- `encodePutRecord`: `keySize (2B LE) | key | CRC32 (4B LE)`, the checksum
computed over `keySize ‖ key` (`data[:2+len(key)]`).  The source writes
`uint16(len(key))`, hence the `% 65536`. -/
def encodePutRecord (key : List Nat) : List Nat :=
  le16Bytes (key.length % 65536) ++ key ++
    le32Bytes (crc32 (le16Bytes (key.length % 65536) ++ key))

/-- `io.ReadFull` on a buffered reader modelled as the list of not yet
consumed bytes: reads exactly `n` bytes when available; returns `io.EOF`
when no byte could be read, `io.ErrUnexpectedEOF` after a partial read. -/
def readFull (n : Nat) (s : List Nat) : Except Err (List Nat × List Nat) :=
  if n ≤ s.length then .ok (s.take n, s.drop n)
  else if s.length = 0 then .error .eof
  else .error .unexpectedEOF

/-- Go's `copy(dst[start:], src)` on our list model: overwrites bytes of
`dst` from position `start` with `src`, truncated to `dst`'s length. -/
def listOverwrite (dst : List Nat) (start : Nat) (src : List Nat) : List Nat :=
  (dst.take start ++ src ++ dst.drop (start + src.length)).take dst.length

/-- A decoded segment record (struct `record`). -/
structure Rec where
  segmentID : Nat
  offset : Nat
  data : List Nat
  key : List Nat
  deriving DecidableEq

/-- State of a `segmentIterator`: owning segment id (`it.f.id`), current
`offset`, and the remaining bytes of the buffered reader positioned just
after the segment header. -/
structure SegIterState where
  segID : Nat
  offset : Nat
  stream : List Nat
  deriving DecidableEq

/-- Modelled from the spec: a Segment "holds a fixed-size header followed by
a sequence of Records" and "a segment's record stream is read starting
immediately after the segment header".  The numeric size of the header is
not in the provided sources; any positive size exhibits the same behavior,
and 512 (the upstream pogreb value) is used as a representative size. -/
def headerSize : Nat := 512

/-- `newSegmentIterator`: seeks to `headerSize` and starts with
`offset = headerSize`.  The stream holds the segment's record bytes, i.e.
the file contents after the header. -/
def newSegmentIterator (segID : Nat) (recordBytes : List Nat) : SegIterState :=
  { segID := segID, offset := headerSize, stream := recordBytes }

/-- `segmentIterator.next`, byte for byte from the source:
reads a 6-byte prefix `kvSizeBuf` (the reusable `it.buf`); `io.EOF` there
is reported as `ErrIterationDone`; decodes `keySize` from the first two
bytes; allocates `data` of `encodedRecordSize(keySize)` zero bytes, copies
`kvSizeBuf` into it, then reads `data[2:]` from the reader; verifies the
trailing CRC32 against `crc32(data[:len(data)-4])`; on success returns the
record carrying the pre-increment `offset` and advances the offset by the
record size. -/
def segNext (it : SegIterState) : Except Err (Rec × SegIterState) :=
  match readFull 6 it.stream with
  | .error .eof => .error .iterationDone
  | .error e => .error e
  | .ok (kvSizeBuf, s1) =>
    let keySize := le16 kvSizeBuf
    let recordSize := encodedRecordSize keySize
    match readFull (recordSize - 2) s1 with
    | .error e => .error e
    | .ok (rest, s2) =>
      let data0 := listOverwrite (List.replicate recordSize 0) 0 kvSizeBuf
      let data := listOverwrite data0 2 rest
      let checksum := le32 (data.drop (data.length - 4))
      if checksum ≠ crc32 (data.take (data.length - 4)) then
        .error .corrupted
      else
        .ok ({ segmentID := it.segID, offset := it.offset, data := data,
               key := (data.drop 2).take keySize },
             { it with offset := it.offset + recordSize, stream := s2 })

deriving instance DecidableEq for Except

/-- Flip bit `j % 8` of a byte. -/
def flipByte (b j : Nat) : Nat := b ^^^ 2 ^ (j % 8)

/-- Flip one bit of byte `i` of a byte string. -/
def flipBitAt (s : List Nat) (i j : Nat) : List Nat :=
  s.set i (flipByte (s.getD i 0) j)

theorem length_encodePutRecord (k : List Nat) :
    (encodePutRecord k).length = k.length + 6 := by
  simp [encodePutRecord, le16Bytes, le32Bytes]

theorem le16_take6 (l : List Nat) : le16 (l.take 6) = le16 l := by
  match l with
  | [] => rfl
  | [a] => rfl
  | a :: b :: t => simp [le16, List.getD]

theorem le16_take6_encodePutRecord (k : List Nat) (hlen : k.length ≤ MaxKeyLength) :
    le16 ((encodePutRecord k).take 6) = k.length := by
  have hl : k.length ≤ 65535 := hlen
  have he : encodePutRecord k = k.length % 65536 % 256 :: k.length % 65536 / 256 % 256 ::
      (k ++ le32Bytes (crc32 (le16Bytes (k.length % 65536) ++ k))) := rfl
  rw [he]
  simp [le16, List.getD]
  omega

theorem le16_take6_set (l : List Nat) (i x : Nat) (hi : 2 ≤ i) :
    le16 ((l.set i x).take 6) = le16 (l.take 6) := by
  obtain ⟨n, rfl⟩ : ∃ n, i = n + 2 := ⟨i - 2, by omega⟩
  match l with
  | [] => rfl
  | [a] => rfl
  | a :: b :: t => simp [le16, List.getD, List.set]

/-- Core computation behind the decoder bug: after consuming the 6-byte
prefix, `next` re-reads `data[2:]`, i.e. `keySize + 4` further bytes, so any
stream shorter than `keySize + 10` bytes makes the second `io.ReadFull`
fail (with `io.EOF` when the prefix consumed the whole stream). -/
theorem segNext_truncated (sid off : Nat) (s : List Nat) (h6 : 6 ≤ s.length)
    (hov : s.length < le16 (s.take 6) + 10) :
    segNext { segID := sid, offset := off, stream := s } =
      .error (if s.length = 6 then Err.eof else Err.unexpectedEOF) := by
  have h1 : readFull 6 s = .ok (s.take 6, s.drop 6) := by
    unfold readFull
    rw [if_pos h6]
  have hdl : (s.drop 6).length = s.length - 6 := by simp
  have h2 : readFull (encodedRecordSize (le16 (s.take 6)) - 2) (s.drop 6) =
      .error (if s.length = 6 then Err.eof else Err.unexpectedEOF) := by
    unfold readFull encodedRecordSize
    rw [hdl, if_neg (by omega)]
    by_cases h0 : s.length = 6
    · rw [if_pos (by omega), if_pos h0]
    · rw [if_neg (by omega), if_neg h0]
  simp only [segNext, h1, h2]

/-- C2: the claim states that decoding the byte sequence produced by
`encodePutRecord k` succeeds and returns `k` with a passing checksum.  The
code refutes it: `segmentIterator.next` consumes a 6-byte prefix and then
re-reads `data[2:]` (`keySize + 4` bytes), i.e. `keySize + 10` bytes in
total for a record that is only `keySize + 6` bytes long, so decoding the
encoding of any key fails with an end-of-stream error instead of returning
the key.  This contradicts the repository's own iterator test and example,
which expect records written by `Put` to be read back. -/
theorem C2_decode_of_encode_fails (sid off : Nat) (k : List Nat)
    (hlen : k.length ≤ MaxKeyLength) :
    segNext { segID := sid, offset := off, stream := encodePutRecord k } =
      .error (if k.length = 0 then Err.eof else Err.unexpectedEOF) := by
  have h6 := length_encodePutRecord k
  have h := segNext_truncated sid off (encodePutRecord k) (by omega)
    (by rw [le16_take6_encodePutRecord k hlen]; omega)
  rw [h, h6]
  by_cases hk : k.length = 0
  · rw [if_pos (by omega), if_pos hk]
  · rw [if_neg (by omega), if_neg hk]

/-- C2 witness: decoding the encoding of the one-byte key `[97]` fails with
`io.ErrUnexpectedEOF`. -/
theorem C2_witness :
    [97].length ≤ MaxKeyLength ∧
      segNext { segID := 0, offset := headerSize, stream := encodePutRecord [97] } =
        .error (if [97].length = 0 then Err.eof else Err.unexpectedEOF) :=
  ⟨by decide, C2_decode_of_encode_fails 0 headerSize [97] (by decide)⟩

/-- C3: the claim states that decoding a valid record with any single bit
flipped fails with the corrupted error.  The code refutes it: because the
decoder over-reads every record by four bytes, decoding a bit-flipped
record (flip anywhere in the key payload or the checksum, i.e. byte index
`i ≥ 2`) fails with an end-of-stream error, never reaching the checksum
comparison, so the corrupted error is not returned. -/
theorem C3_flip_not_corrupted (sid off i j : Nat) (k : List Nat)
    (hlen : k.length ≤ MaxKeyLength) (hi : 2 ≤ i) :
    segNext { segID := sid, offset := off, stream := flipBitAt (encodePutRecord k) i j } =
        .error (if k.length = 0 then Err.eof else Err.unexpectedEOF) ∧
      segNext { segID := sid, offset := off, stream := flipBitAt (encodePutRecord k) i j } ≠
        .error Err.corrupted := by
  have h6 : (flipBitAt (encodePutRecord k) i j).length = k.length + 6 := by
    simp [flipBitAt, length_encodePutRecord]
  have hks : le16 ((flipBitAt (encodePutRecord k) i j).take 6) = k.length := by
    rw [flipBitAt, le16_take6_set _ _ _ hi, le16_take6_encodePutRecord k hlen]
  have h := segNext_truncated sid off (flipBitAt (encodePutRecord k) i j)
    (by omega) (by rw [hks]; omega)
  rw [h, h6]
  by_cases hk : k.length = 0
  · rw [if_pos (by omega), if_pos hk]
    exact ⟨rfl, by decide⟩
  · rw [if_neg (by omega), if_neg hk]
    exact ⟨rfl, by decide⟩

/-- C3 witness: flipping bit 0 of byte 3 (the first checksum byte) of the
encoded record of key `[97]` makes decoding fail with
`io.ErrUnexpectedEOF`, not with the corrupted error. -/
theorem C3_witness :
    [97].length ≤ MaxKeyLength ∧ 2 ≤ 3 ∧
      (segNext { segID := 0, offset := headerSize, stream := flipBitAt (encodePutRecord [97]) 3 0 } =
          .error (if [97].length = 0 then Err.eof else Err.unexpectedEOF) ∧
        segNext { segID := 0, offset := headerSize, stream := flipBitAt (encodePutRecord [97]) 3 0 } ≠
          .error Err.corrupted) :=
  ⟨by decide, by decide, C3_flip_not_corrupted 0 headerSize 3 0 [97] (by decide) (by decide)⟩

/-- C4: at a stream position with zero bytes remaining the decoder returns
`ErrIterationDone` (the first `io.ReadFull` reports `io.EOF`, which `next`
maps to the iteration-finished signal); when at least one byte of a record
is present but the stream ends before the full declared record
(`encodedRecordSize` of the decoded key size), the decoder returns an
error distinct from `ErrIterationDone`. -/
theorem C4_end_of_segment :
    (∀ it : SegIterState, it.stream = [] → segNext it = .error Err.iterationDone) ∧
    (∀ it : SegIterState, 1 ≤ it.stream.length →
        it.stream.length < encodedRecordSize (le16 it.stream) →
        ∃ e, segNext it = .error e ∧ e ≠ Err.iterationDone) := by
  constructor
  · intro it h
    obtain ⟨sid, off, s⟩ := it
    simp only at h
    subst h
    rfl
  · intro it h1 h2
    obtain ⟨sid, off, s⟩ := it
    simp only at h1 h2 ⊢
    unfold encodedRecordSize at h2
    by_cases h6 : 6 ≤ s.length
    · refine ⟨if s.length = 6 then Err.eof else Err.unexpectedEOF, ?_, ?_⟩
      · exact segNext_truncated sid off s h6 (by rw [le16_take6]; omega)
      · by_cases h0 : s.length = 6
        · rw [if_pos h0]; decide
        · rw [if_neg h0]; decide
    · have h1' : readFull 6 s = .error .unexpectedEOF := by
        unfold readFull
        rw [if_neg (by omega), if_neg (by omega)]
      exact ⟨Err.unexpectedEOF, by simp only [segNext, h1'], by decide⟩

/-- C4 witness: the empty stream yields `ErrIterationDone`; the truncated
stream `[5, 0, 1]` (a declared 5-byte key with one payload byte) yields an
error different from `ErrIterationDone`. -/
theorem C4_witness :
    segNext { segID := 0, offset := headerSize, stream := [] } = .error Err.iterationDone ∧
      ∃ e, segNext { segID := 0, offset := headerSize, stream := [5, 0, 1] } = .error e ∧
        e ≠ Err.iterationDone :=
  ⟨C4_end_of_segment.1 { segID := 0, offset := headerSize, stream := [] } rfl,
    C4_end_of_segment.2 { segID := 0, offset := headerSize, stream := [5, 0, 1] }
      (by decide) (by decide)⟩

/-- C8 counterexample: the claim states that the offset stored in a record
produced by the segment iterator is measured from just past the segment
header, so that the first record has offset 0.  In the code
`newSegmentIterator` starts with `offset = headerSize` and `next` stores
that running offset into the record, so the first record produced by a
fresh iterator carries offset `headerSize`, not 0.  The stream below is
the unique byte sequence shape the (over-reading) decoder accepts: size
prefix `[1, 0]`, four bytes it discards, the key byte 97, and the CRC32 of
`keySize ‖ key`. -/
theorem C8_counterexample :
    segNext (newSegmentIterator 3 ([1, 0, 9, 9, 9, 9, 97] ++ le32Bytes (crc32 [1, 0, 97]))) =
        .ok ({ segmentID := 3, offset := headerSize, data := [1, 0, 97, 235, 226, 54, 196],
               key := [97] },
             { segID := 3, offset := headerSize + 7, stream := [] }) ∧
      headerSize ≠ 0 := by decide

/-- C8 amended: the offset stored in a record produced by the segment
iterator is the absolute byte position of the record's start within the
segment file, header included: the iterator starts at `headerSize`, every
produced record carries the iterator's pre-read offset, and the offset
then advances by the consumed record's encoded size.  The first record of
every segment therefore has offset `headerSize`, not 0. -/
theorem C8_record_offset_absolute :
    (∀ sid bytes, (newSegmentIterator sid bytes).offset = headerSize) ∧
    (∀ (it : SegIterState) (r : Rec) (it' : SegIterState),
        segNext it = .ok (r, it') → r.offset = it.offset) := by
  constructor
  · intro sid bytes
    rfl
  · intro it r it' h
    unfold segNext at h
    split at h
    · simp_all
    · simp_all
    · dsimp only at h
      split at h
      · simp_all
      · split at h
        · simp_all
        · simp only [Except.ok.injEq, Prod.mk.injEq] at h
          obtain ⟨h1, h2⟩ := h
          rw [← h1]

/-- C8 witness for the amended statement: the record produced by a fresh
iterator on the crafted decodable stream carries the iterator's starting
offset, which is `headerSize`. -/
theorem C8_witness :
    ({ segmentID := 3, offset := headerSize, data := [1, 0, 97, 235, 226, 54, 196],
        key := [97] } : Rec).offset =
      (newSegmentIterator 3 ([1, 0, 9, 9, 9, 9, 97] ++ le32Bytes (crc32 [1, 0, 97]))).offset :=
  C8_record_offset_absolute.2
    (newSegmentIterator 3 ([1, 0, 9, 9, 9, 9, 97] ++ le32Bytes (crc32 [1, 0, 97])))
    { segmentID := 3, offset := headerSize, data := [1, 0, 97, 235, 226, 54, 196], key := [97] }
    { segID := 3, offset := headerSize + 7, stream := [] } (by decide)

/-! ## Index, datalog and engine operations (part_002, with the index and
datalog collaborators modelled from the spec §4.2/§4.3) -/

/-- An index entry (`slot`): `{hash, segmentID, keySize, offset}`. -/
structure Slot where
  hash : Nat
  segmentID : Nat
  keySize : Nat
  offset : Nat
  deriving DecidableEq

/-- Current write position of the datalog's writable segment: the total
encoded size of the records appended so far. -/
def writePos : List (List Nat) → Nat
  | [] => 0
  | k :: rest => encodedRecordSize k.length + writePos rest

/-- Modelled from the spec: `Datalog.put(key) → (segmentID, offset)`
"encodes the key as a Record, appends it to the current writable segment,
returns its new location."  The datalog is modelled as the append-ordered
list of record keys of the single writable segment (id 0); segment
rotation only changes which `(segmentID, offset)` pair is handed out and
is not needed by the engine claims. -/
def datalogPut (dl : List (List Nat)) (key : List Nat) : Nat × Nat × List (List Nat) :=
  (0, writePos dl, dl ++ [key])

/-- The record starting at byte position `off` of the record stream, if a
record starts exactly there. -/
def findRecord : List (List Nat) → Nat → Option (List Nat)
  | [], _ => none
  | k :: rest, off =>
    if off = 0 then some k
    else if off < encodedRecordSize k.length then none
    else findRecord rest (off - encodedRecordSize k.length)

/-- Modelled from the spec: `Datalog.readKey(slot)` "seeks to `slot.offset`
within the segment named by `slot.segmentID`, decodes exactly one Record,
verifies checksum, returns the key slice.  Fails with corrupted if the
checksum fails or the declared key size disagrees with `slot.keySize`."
Records in the model are stored decoded, so the checksum verifies exactly
when a record starts at the slot's offset. -/
def datalogReadKey (dl : List (List Nat)) (sl : Slot) : Except Err (List Nat) :=
  match findRecord dl sl.offset with
  | none => .error .corrupted
  | some k => if k.length ≠ sl.keySize then .error .corrupted else .ok k

/-- Modelled from the spec §4.3: `Index.get` locates the slots sharing the
hash in a deterministic stable order (insertion order here), invokes
`resolve` once per candidate, and stops at the first match or first error.
Returns whether a match was found (the Go callers observe this through
the closure flag they pass in). -/
def indexGet (slots : List Slot) (h : Nat) (resolve : Slot → Except Err Bool) :
    Except Err Bool :=
  match slots with
  | [] => .ok false
  | sl :: rest =>
    if sl.hash = h then
      match resolve sl with
      | .error e => .error e
      | .ok true => .ok true
      | .ok false => indexGet rest h resolve
    else indexGet rest h resolve

/-- Modelled from the spec §4.3: `Index.put` walks the candidates exactly
like `get`; a slot for which `resolve` reports a match is replaced in
place with `newSl`; if no candidate matches, `newSl` is appended as a new
entry. -/
def indexPut (slots : List Slot) (newSl : Slot) (resolve : Slot → Except Err Bool) :
    Except Err (List Slot) :=
  match slots with
  | [] => .ok [newSl]
  | sl :: rest =>
    if sl.hash = newSl.hash then
      match resolve sl with
      | .error e => .error e
      | .ok true => .ok (newSl :: rest)
      | .ok false =>
        match indexPut rest newSl resolve with
        | .error e => .error e
        | .ok rest' => .ok (sl :: rest')
    else
      match indexPut rest newSl resolve with
      | .error e => .error e
      | .ok rest' => .ok (sl :: rest')

/-- Engine state relevant to `Put`/`Has`/`HasOrPut`/`Count`: the index
slots and the datalog records.  The hash function (seeded `hash.Sum32`)
is passed as a parameter `hf` to the operations. -/
structure DBState where
  index : List Slot
  datalog : List (List Nat)
  deriving DecidableEq

/-- The equality-resolution callback that `DB.Has`, `DB.put` and
`DB.HasOrPut` all pass to the index (part_002): reject when
`uint16(len(key))` differs from the slot's key size, otherwise read the
slot's key from the datalog (propagating errors) and compare bytes. -/
def resolveKey (dl : List (List Nat)) (key : List Nat) (sl : Slot) : Except Err Bool :=
  if key.length % 65536 ≠ sl.keySize then .ok false
  else
    match datalogReadKey dl sl with
    | .error e => .error e
    | .ok slKey => .ok (decide (slKey = key))

/-- `DB.Has`: index lookup under the read lock; the `found` flag is set
exactly when a candidate's key bytes equal `key`. -/
def dbHas (hf : List Nat → Nat) (st : DBState) (key : List Nat) : Bool × Option Err :=
  match indexGet st.index (hf key) (resolveKey st.datalog key) with
  | .error e => (false, some e)
  | .ok found => (found, none)

/-- `DB.Count`: the number of live index slots. -/
def dbCount (st : DBState) : Nat := st.index.length

/-- `DB.Put`: reject keys longer than `MaxKeyLength`; append the record via
`datalog.put`; insert/refresh the slot via `db.put` (an `index.put` whose
callback reads through the post-append datalog).  Returns the resulting
state together with the returned error; on an index error the record has
already been appended. -/
def dbPut (hf : List Nat → Nat) (st : DBState) (key : List Nat) : DBState × Option Err :=
  if key.length > MaxKeyLength then (st, some .keyTooLarge)
  else
    match datalogPut st.datalog key with
    | (segID, offset, dl') =>
      let sl : Slot := { hash := hf key, segmentID := segID,
                         keySize := key.length % 65536, offset := offset }
      match indexPut st.index sl (resolveKey dl' key) with
      | .error e => ({ st with datalog := dl' }, some e)
      | .ok idx' => ({ index := idx', datalog := dl' }, none)

/-- `DB.HasOrPut`: reject oversized keys; look the key up; only when it was
not found, append the record and insert the slot (the whole operation runs
under one exclusive lock acquisition). -/
def dbHasOrPut (hf : List Nat → Nat) (st : DBState) (key : List Nat) :
    Bool × DBState × Option Err :=
  if key.length > MaxKeyLength then (false, st, some .keyTooLarge)
  else
    match indexGet st.index (hf key) (resolveKey st.datalog key) with
    | .error e => (false, st, some e)
    | .ok true => (true, st, none)
    | .ok false =>
      match datalogPut st.datalog key with
      | (segID, offset, dl') =>
        let sl : Slot := { hash := hf key, segmentID := segID,
                           keySize := key.length % 65536, offset := offset }
        match indexPut st.index sl (resolveKey dl' key) with
        | .error e => (false, { st with datalog := dl' }, some e)
        | .ok idx' => (false, { index := idx', datalog := dl' }, none)

/-- A slot is intact with respect to a datalog and hash function: reading
it yields a key of the slot's declared size whose hash is the slot's hash
(spec §3, invariant 1). -/
def slotOK (dl : List (List Nat)) (hf : List Nat → Nat) (sl : Slot) : Bool :=
  match datalogReadKey dl sl with
  | .error _ => false
  | .ok k => sl.keySize == k.length && decide (k.length ≤ MaxKeyLength) && sl.hash == hf k

/-- Well-formedness of an engine state: every index slot is intact. -/
def WF (hf : List Nat → Nat) (st : DBState) : Prop :=
  ∀ sl ∈ st.index, slotOK st.datalog hf sl = true

/-- Number of live index entries whose stored record key is `key`. -/
def liveEntries (st : DBState) (key : List Nat) : Nat :=
  st.index.countP fun sl => decide (datalogReadKey st.datalog sl = .ok key)

instance (hf : List Nat → Nat) (st : DBState) : Decidable (WF hf st) :=
  List.decidableBAll _ st.index

theorem findRecord_append (dl l2 : List (List Nat)) (off : Nat) (k : List Nat)
    (h : findRecord dl off = some k) : findRecord (dl ++ l2) off = some k := by
  induction dl generalizing off with
  | nil => simp [findRecord] at h
  | cons a rest ih =>
    rw [List.cons_append]
    unfold findRecord at h ⊢
    by_cases h0 : off = 0
    · rw [if_pos h0] at h ⊢
      exact h
    · rw [if_neg h0] at h ⊢
      by_cases h1 : off < encodedRecordSize a.length
      · rw [if_pos h1] at h
        exact absurd h (by simp)
      · rw [if_neg h1] at h ⊢
        exact ih _ h

theorem findRecord_writePos (dl : List (List Nat)) (k : List Nat) :
    findRecord (dl ++ [k]) (writePos dl) = some k := by
  induction dl with
  | nil => simp [findRecord, writePos]
  | cons a rest ih =>
    have hE : 6 ≤ encodedRecordSize a.length := by unfold encodedRecordSize; omega
    rw [List.cons_append]
    unfold findRecord writePos
    rw [if_neg (by omega), if_neg (by omega)]
    have : encodedRecordSize a.length + writePos rest - encodedRecordSize a.length =
        writePos rest := by omega
    rw [this]
    exact ih

theorem datalogReadKey_append (dl l2 : List (List Nat)) (sl : Slot) (k : List Nat)
    (h : datalogReadKey dl sl = .ok k) : datalogReadKey (dl ++ l2) sl = .ok k := by
  unfold datalogReadKey at h ⊢
  cases hf : findRecord dl sl.offset with
  | none => rw [hf] at h; exact absurd h (by simp)
  | some k' =>
    rw [hf] at h
    rw [findRecord_append dl l2 _ _ hf]
    exact h

theorem datalogReadKey_new (dl : List (List Nat)) (key : List Nat) (h sid : Nat)
    (hlen : key.length ≤ MaxKeyLength) :
    datalogReadKey (dl ++ [key])
      { hash := h, segmentID := sid, keySize := key.length % 65536, offset := writePos dl } =
      .ok key := by
  unfold datalogReadKey
  simp only
  rw [findRecord_writePos]
  have hm : key.length % 65536 = key.length := Nat.mod_eq_of_lt (by
    have : key.length ≤ 65535 := hlen
    omega)
  simp [hm]

theorem slotOK_append (dl l2 : List (List Nat)) (hf : List Nat → Nat) (sl : Slot)
    (h : slotOK dl hf sl = true) : slotOK (dl ++ l2) hf sl = true := by
  unfold slotOK at h ⊢
  cases hr : datalogReadKey dl sl with
  | error e => rw [hr] at h; simp at h
  | ok k =>
    rw [hr] at h
    rw [datalogReadKey_append dl l2 sl k hr]
    exact h

theorem resolveKey_eq (dl : List (List Nat)) (hf : List Nat → Nat) (key : List Nat) (sl : Slot)
    (hok : slotOK dl hf sl = true) (hlen : key.length ≤ MaxKeyLength) :
    resolveKey dl key sl = .ok (decide (datalogReadKey dl sl = .ok key)) := by
  have hl : key.length ≤ 65535 := hlen
  unfold slotOK at hok
  cases hr : datalogReadKey dl sl with
  | error e => rw [hr] at hok; simp at hok
  | ok k =>
    rw [hr] at hok
    simp only [Bool.and_eq_true, beq_iff_eq, decide_eq_true_eq] at hok
    obtain ⟨⟨hsz, hklen⟩, hh⟩ := hok
    unfold resolveKey
    rw [hr]
    by_cases he : key.length = sl.keySize
    · rw [if_neg (by omega)]
      simp
    · rw [if_pos (by omega)]
      have hne : k ≠ key := by
        intro hkk
        apply he
        rw [← hkk]
        omega
      simp [hne]

theorem indexGet_uniform (slots : List Slot) (h : Nat) (resolve : Slot → Except Err Bool)
    (P : Slot → Bool)
    (hres : ∀ sl ∈ slots, sl.hash = h → resolve sl = .ok (P sl)) :
    indexGet slots h resolve = .ok (slots.any fun sl => sl.hash == h && P sl) := by
  induction slots with
  | nil => rfl
  | cons sl rest ih =>
    have ih' := ih fun s hs hsh => hres s (List.mem_cons_of_mem _ hs) hsh
    unfold indexGet
    by_cases hh : sl.hash = h
    · rw [if_pos hh, hres sl (List.mem_cons_self sl rest) hh]
      cases hP : P sl
      · rw [ih']
        simp [List.any_cons, hh, hP]
      · simp [List.any_cons, hh, hP]
    · rw [if_neg hh, ih']
      simp [List.any_cons, hh]

theorem indexPut_replace (slots : List Slot) (newSl : Slot) (resolve : Slot → Except Err Bool)
    (P : Slot → Bool)
    (hres : ∀ sl ∈ slots, sl.hash = newSl.hash → resolve sl = .ok (P sl))
    (hex : ∃ sl ∈ slots, sl.hash = newSl.hash ∧ P sl = true) :
    ∃ slots', indexPut slots newSl resolve = .ok slots' ∧
      slots'.length = slots.length ∧
      newSl ∈ slots' ∧
      (∀ sl ∈ slots', sl ∈ slots ∨ sl = newSl) ∧
      (P newSl = true → slots'.countP P = slots.countP P) := by
  induction slots with
  | nil =>
    obtain ⟨sl, hm, _⟩ := hex
    simp at hm
  | cons sl rest ih =>
    have hres' : ∀ s ∈ rest, s.hash = newSl.hash → resolve s = .ok (P s) :=
      fun s hs hsh => hres s (List.mem_cons_of_mem _ hs) hsh
    unfold indexPut
    by_cases hh : sl.hash = newSl.hash
    · rw [if_pos hh, hres sl (List.mem_cons_self sl rest) hh]
      cases hP : P sl
      · have hex' : ∃ s ∈ rest, s.hash = newSl.hash ∧ P s = true := by
          obtain ⟨s, hs, hsh, hsP⟩ := hex
          rcases List.mem_cons.mp hs with rfl | hs'
          · rw [hP] at hsP
            exact absurd hsP (by simp)
          · exact ⟨s, hs', hsh, hsP⟩
        obtain ⟨rest', hput, hlen, hmem, hsub, hcount⟩ := ih hres' hex'
        refine ⟨sl :: rest', by rw [hput], by simp [hlen], by simp [hmem], ?_, ?_⟩
        · intro s hs
          rcases List.mem_cons.mp hs with rfl | hs'
          · exact Or.inl (List.mem_cons_self s rest)
          · rcases hsub s hs' with h1 | h1
            · exact Or.inl (List.mem_cons_of_mem _ h1)
            · exact Or.inr h1
        · intro hPn
          simp [List.countP_cons, hcount hPn]
      · refine ⟨newSl :: rest, rfl, by simp, List.mem_cons_self newSl rest, ?_, ?_⟩
        · intro s hs
          rcases List.mem_cons.mp hs with rfl | hs'
          · exact Or.inr rfl
          · exact Or.inl (List.mem_cons_of_mem _ hs')
        · intro hPn
          simp [List.countP_cons, hPn, hP]
    · rw [if_neg hh]
      have hex' : ∃ s ∈ rest, s.hash = newSl.hash ∧ P s = true := by
        obtain ⟨s, hs, hsh, hsP⟩ := hex
        rcases List.mem_cons.mp hs with rfl | hs'
        · exact absurd hsh hh
        · exact ⟨s, hs', hsh, hsP⟩
      obtain ⟨rest', hput, hlen, hmem, hsub, hcount⟩ := ih hres' hex'
      refine ⟨sl :: rest', by rw [hput], by simp [hlen], by simp [hmem], ?_, ?_⟩
      · intro s hs
        rcases List.mem_cons.mp hs with rfl | hs'
        · exact Or.inl (List.mem_cons_self s rest)
        · rcases hsub s hs' with h1 | h1
          · exact Or.inl (List.mem_cons_of_mem _ h1)
          · exact Or.inr h1
      · intro hPn
        simp [List.countP_cons, hcount hPn]

theorem indexPut_append_case (slots : List Slot) (newSl : Slot)
    (resolve : Slot → Except Err Bool) (P : Slot → Bool)
    (hres : ∀ sl ∈ slots, sl.hash = newSl.hash → resolve sl = .ok (P sl))
    (hnone : ∀ sl ∈ slots, sl.hash = newSl.hash → P sl = false) :
    indexPut slots newSl resolve = .ok (slots ++ [newSl]) := by
  induction slots with
  | nil => rfl
  | cons sl rest ih =>
    have ih' := ih (fun s hs hsh => hres s (List.mem_cons_of_mem _ hs) hsh)
      (fun s hs hsh => hnone s (List.mem_cons_of_mem _ hs) hsh)
    unfold indexPut
    by_cases hh : sl.hash = newSl.hash
    · rw [if_pos hh, hres sl (List.mem_cons_self sl rest) hh,
        hnone sl (List.mem_cons_self sl rest) hh, ih']
      rfl
    · rw [if_neg hh, ih']
      rfl

/-- C1: for a well-formed store that already contains key `key` (exactly
`liveEntries` many live index entries hold it, at least one), a further
`Put(key)` with `len(key) ≤ MaxKeyLength` succeeds, leaves `Count()`
unchanged (the matching slot is replaced in place, not added), makes
`Has(key)` return true, and does not create a second live index entry for
the key (the number of live entries holding `key` is unchanged). -/
theorem C1_put_existing_key (hf : List Nat → Nat) (st : DBState) (key : List Nat)
    (hwf : WF hf st) (hlen : key.length ≤ MaxKeyLength) (hone : 1 ≤ liveEntries st key) :
    (dbPut hf st key).2 = none ∧
      dbCount (dbPut hf st key).1 = dbCount st ∧
      dbHas hf (dbPut hf st key).1 key = (true, none) ∧
      liveEntries (dbPut hf st key).1 key = liveEntries st key := by
  have hwf' : ∀ sl ∈ st.index, slotOK (st.datalog ++ [key]) hf sl = true :=
    fun sl hs => slotOK_append _ _ _ _ (hwf sl hs)
  have hres : ∀ sl ∈ st.index,
      sl.hash = ({ hash := hf key, segmentID := 0, keySize := key.length % 65536, offset := writePos st.datalog } : Slot).hash →
      resolveKey (st.datalog ++ [key]) key sl =
        .ok (decide (datalogReadKey (st.datalog ++ [key]) sl = .ok key)) :=
    fun sl hs _ => resolveKey_eq _ hf key sl (hwf' sl hs) hlen
  -- the live entry for `key` in the pre-state
  have hex0 : ∃ sl ∈ st.index, decide (datalogReadKey st.datalog sl = .ok key) = true := by
    apply List.countP_pos_iff.mp
    exact hone
  obtain ⟨sl0, hs0, hkey0⟩ := hex0
  rw [decide_eq_true_eq] at hkey0
  have hhash0 : sl0.hash = hf key := by
    have h1 := hwf sl0 hs0
    unfold slotOK at h1
    rw [hkey0] at h1
    simp only [Bool.and_eq_true, beq_iff_eq, decide_eq_true_eq] at h1
    exact h1.2
  have hex : ∃ sl ∈ st.index,
      sl.hash = ({ hash := hf key, segmentID := 0, keySize := key.length % 65536, offset := writePos st.datalog } : Slot).hash ∧
      decide (datalogReadKey (st.datalog ++ [key]) sl = .ok key) = true :=
    ⟨sl0, hs0, hhash0, by
      rw [datalogReadKey_append _ [key] _ _ hkey0]
      simp⟩
  obtain ⟨slots', hput, hlen', hmemNew, hsub, hcount⟩ :=
    indexPut_replace st.index _ (resolveKey (st.datalog ++ [key]) key)
      (fun sl => decide (datalogReadKey (st.datalog ++ [key]) sl = .ok key)) hres hex
  have hPnew : decide (datalogReadKey (st.datalog ++ [key])
      ({ hash := hf key, segmentID := 0, keySize := key.length % 65536, offset := writePos st.datalog } : Slot) = .ok key) = true := by
    rw [datalogReadKey_new st.datalog key (hf key) 0 hlen]
    simp
  have hmain : dbPut hf st key = ({ index := slots', datalog := st.datalog ++ [key] }, none) := by
    unfold dbPut datalogPut
    rw [if_neg (by omega)]
    simp only []
    rw [hput]
  have hOKnew : slotOK (st.datalog ++ [key]) hf
      ({ hash := hf key, segmentID := 0, keySize := key.length % 65536, offset := writePos st.datalog } : Slot) = true := by
    unfold slotOK
    rw [datalogReadKey_new st.datalog key (hf key) 0 hlen]
    have hm : key.length % 65536 = key.length := Nat.mod_eq_of_lt (by
      have : key.length ≤ 65535 := hlen
      omega)
    simp [hm, hlen]
  have hres2 : ∀ sl ∈ slots', sl.hash = hf key →
      resolveKey (st.datalog ++ [key]) key sl =
        .ok (decide (datalogReadKey (st.datalog ++ [key]) sl = .ok key)) := by
    intro sl hs _
    rcases hsub sl hs with h1 | h1
    · exact resolveKey_eq _ hf key sl (hwf' sl h1) hlen
    · subst h1
      exact resolveKey_eq _ hf key _ hOKnew hlen
  have hget : indexGet slots' (hf key) (resolveKey (st.datalog ++ [key]) key) = .ok true := by
    rw [indexGet_uniform slots' (hf key) _
      (fun sl => decide (datalogReadKey (st.datalog ++ [key]) sl = .ok key)) hres2]
    have : (slots'.any fun sl => sl.hash == hf key &&
        decide (datalogReadKey (st.datalog ++ [key]) sl = .ok key)) = true :=
      List.any_eq_true.mpr ⟨_, hmemNew, by simp [hPnew]⟩
    rw [this]
  have hPP : ∀ sl ∈ st.index,
      (decide (datalogReadKey (st.datalog ++ [key]) sl = .ok key) = true) ↔
      (decide (datalogReadKey st.datalog sl = .ok key) = true) := by
    intro sl hs
    have h1 := hwf sl hs
    unfold slotOK at h1
    cases hr : datalogReadKey st.datalog sl with
    | error e => rw [hr] at h1; simp at h1
    | ok k =>
      simp [datalogReadKey_append _ [key] _ _ hr, hr]
  refine ⟨by rw [hmain], ?_, ?_, ?_⟩
  · rw [hmain]
    exact hlen'
  · rw [hmain]
    unfold dbHas
    simp only []
    rw [hget]
  · rw [hmain]
    unfold liveEntries
    simp only []
    rw [hcount hPnew]
    exact List.countP_congr hPP

theorem decide_readKey_append (dl l2 : List (List Nat)) (hf : List Nat → Nat)
    (key : List Nat) (sl : Slot) (h : slotOK dl hf sl = true) :
    decide (datalogReadKey (dl ++ l2) sl = .ok key) =
      decide (datalogReadKey dl sl = .ok key) := by
  unfold slotOK at h
  cases hr : datalogReadKey dl sl with
  | error e => rw [hr] at h; simp at h
  | ok k => simp [datalogReadKey_append _ l2 _ _ hr, hr]

/-- C5: for every key longer than `MaxKeyLength`, `Put` returns the
key-too-large error and `HasOrPut` returns `(false, key-too-large)`, and
in both cases the returned state is the unchanged input state: the length
guard runs before anything is appended to the datalog or the index. -/
theorem C5_key_too_large (hf : List Nat → Nat) (st : DBState) (key : List Nat)
    (hbig : key.length > MaxKeyLength) :
    dbPut hf st key = (st, some Err.keyTooLarge) ∧
      dbHasOrPut hf st key = (false, st, some Err.keyTooLarge) := by
  unfold dbPut dbHasOrPut
  rw [if_pos hbig, if_pos hbig]
  exact ⟨rfl, rfl⟩

/-- C6: on a well-formed store, `HasOrPut(key)` for a key that is already
present returns `existed = true` and performs no write at all — the state
(datalog and index alike) is returned unchanged; for an absent key it
returns `existed = false`, appends exactly one record to the datalog and
appends exactly one new slot to the index. -/
theorem C6_hasorput_existing_no_write (hf : List Nat → Nat) (st : DBState) (key : List Nat)
    (hwf : WF hf st) (hlen : key.length ≤ MaxKeyLength) :
    (1 ≤ liveEntries st key → dbHasOrPut hf st key = (true, st, none)) ∧
    (liveEntries st key = 0 →
      dbHasOrPut hf st key = (false,
        { index := st.index ++ [{ hash := hf key, segmentID := 0, keySize := key.length % 65536, offset := writePos st.datalog }],
          datalog := st.datalog ++ [key] }, none)) := by
  have hres : ∀ sl ∈ st.index, sl.hash = hf key →
      resolveKey st.datalog key sl =
        .ok (decide (datalogReadKey st.datalog sl = .ok key)) :=
    fun sl hs _ => resolveKey_eq _ hf key sl (hwf sl hs) hlen
  constructor
  · intro hone
    have hex0 : ∃ sl ∈ st.index, decide (datalogReadKey st.datalog sl = .ok key) = true := by
      apply List.countP_pos_iff.mp
      exact hone
    obtain ⟨sl0, hs0, hkey0⟩ := hex0
    have hhash0 : sl0.hash = hf key := by
      have h1 := hwf sl0 hs0
      unfold slotOK at h1
      rw [decide_eq_true_eq] at hkey0
      rw [hkey0] at h1
      simp only [Bool.and_eq_true, beq_iff_eq, decide_eq_true_eq] at h1
      exact h1.2
    have hget : indexGet st.index (hf key) (resolveKey st.datalog key) = .ok true := by
      rw [indexGet_uniform st.index (hf key) _
        (fun sl => decide (datalogReadKey st.datalog sl = .ok key)) hres]
      have hany : (st.index.any fun sl => sl.hash == hf key &&
          decide (datalogReadKey st.datalog sl = .ok key)) = true :=
        List.any_eq_true.mpr ⟨sl0, hs0, by simp [hhash0, hkey0]⟩
      rw [hany]
    unfold dbHasOrPut
    rw [if_neg (by omega), hget]
  · intro hzero
    have hall : ∀ sl ∈ st.index, decide (datalogReadKey st.datalog sl = .ok key) = false := by
      intro sl hs
      have h1 := List.countP_eq_zero.mp hzero sl hs
      simpa using h1
    have hget0 : indexGet st.index (hf key) (resolveKey st.datalog key) = .ok false := by
      rw [indexGet_uniform st.index (hf key) _
        (fun sl => decide (datalogReadKey st.datalog sl = .ok key)) hres]
      have hany : (st.index.any fun sl => sl.hash == hf key &&
          decide (datalogReadKey st.datalog sl = .ok key)) = false := by
        rw [List.any_eq_false]
        intro sl hs
        simp [hall sl hs]
      rw [hany]
    have hres' : ∀ sl ∈ st.index,
        sl.hash = ({ hash := hf key, segmentID := 0, keySize := key.length % 65536, offset := writePos st.datalog } : Slot).hash →
        resolveKey (st.datalog ++ [key]) key sl =
          .ok (decide (datalogReadKey (st.datalog ++ [key]) sl = .ok key)) :=
      fun sl hs _ => resolveKey_eq _ hf key sl (slotOK_append _ _ _ _ (hwf sl hs)) hlen
    have hnone : ∀ sl ∈ st.index,
        sl.hash = ({ hash := hf key, segmentID := 0, keySize := key.length % 65536, offset := writePos st.datalog } : Slot).hash →
        decide (datalogReadKey (st.datalog ++ [key]) sl = .ok key) = false := by
      intro sl hs _
      rw [decide_readKey_append _ _ hf _ _ (hwf sl hs)]
      exact hall sl hs
    have hput := indexPut_append_case st.index
      { hash := hf key, segmentID := 0, keySize := key.length % 65536, offset := writePos st.datalog }
      (resolveKey (st.datalog ++ [key]) key)
      (fun sl => decide (datalogReadKey (st.datalog ++ [key]) sl = .ok key)) hres' hnone
    unfold dbHasOrPut datalogPut
    rw [if_neg (by omega), hget0]
    simp only []
    rw [hput]

/-- C1 witness: a store holding the single key `[7]`; a second `Put` keeps
the count at 1, keeps `Has` true and keeps exactly one live entry. -/
theorem C1_witness :
    WF (fun _ => 0) { index := [{ hash := 0, segmentID := 0, keySize := 1, offset := 0 }], datalog := [[7]] } ∧
      1 ≤ liveEntries { index := [{ hash := 0, segmentID := 0, keySize := 1, offset := 0 }], datalog := [[7]] } [7] ∧
      ((dbPut (fun _ => 0) { index := [{ hash := 0, segmentID := 0, keySize := 1, offset := 0 }], datalog := [[7]] } [7]).2 = none ∧
        dbCount (dbPut (fun _ => 0) { index := [{ hash := 0, segmentID := 0, keySize := 1, offset := 0 }], datalog := [[7]] } [7]).1 =
          dbCount { index := [{ hash := 0, segmentID := 0, keySize := 1, offset := 0 }], datalog := [[7]] } ∧
        dbHas (fun _ => 0) (dbPut (fun _ => 0) { index := [{ hash := 0, segmentID := 0, keySize := 1, offset := 0 }], datalog := [[7]] } [7]).1 [7] = (true, none) ∧
        liveEntries (dbPut (fun _ => 0) { index := [{ hash := 0, segmentID := 0, keySize := 1, offset := 0 }], datalog := [[7]] } [7]).1 [7] =
          liveEntries { index := [{ hash := 0, segmentID := 0, keySize := 1, offset := 0 }], datalog := [[7]] } [7]) :=
  ⟨by decide, by decide,
    C1_put_existing_key (fun _ => 0)
      { index := [{ hash := 0, segmentID := 0, keySize := 1, offset := 0 }], datalog := [[7]] }
      [7] (by decide) (by decide) (by decide)⟩

/-- C5 witness: a key of length `MaxKeyLength + 1 = 65536`. -/
theorem C5_witness :
    (List.replicate 65536 0).length > MaxKeyLength ∧
      (dbPut (fun _ => 0) { index := [], datalog := [] } (List.replicate 65536 0) =
          ({ index := [], datalog := [] }, some Err.keyTooLarge) ∧
        dbHasOrPut (fun _ => 0) { index := [], datalog := [] } (List.replicate 65536 0) =
          (false, { index := [], datalog := [] }, some Err.keyTooLarge)) :=
  ⟨by rw [List.length_replicate]; decide,
    C5_key_too_large (fun _ => 0) { index := [], datalog := [] } (List.replicate 65536 0)
      (by rw [List.length_replicate]; decide)⟩

/-- C6 witness: `HasOrPut [7]` on a store containing `[7]` reports
`existed = true` and changes nothing; on an empty store it reports
`existed = false` and appends one record and one slot. -/
theorem C6_witness :
    dbHasOrPut (fun _ => 0) { index := [{ hash := 0, segmentID := 0, keySize := 1, offset := 0 }], datalog := [[7]] } [7] =
        (true, { index := [{ hash := 0, segmentID := 0, keySize := 1, offset := 0 }], datalog := [[7]] }, none) ∧
      dbHasOrPut (fun _ => 0) { index := [], datalog := [] } [7] =
        (false, { index := [{ hash := 0, segmentID := 0, keySize := 1, offset := 0 }], datalog := [[7]] }, none) :=
  ⟨(C6_hasorput_existing_no_write (fun _ => 0)
      { index := [{ hash := 0, segmentID := 0, keySize := 1, offset := 0 }], datalog := [[7]] }
      [7] (by decide) (by decide)).1 (by decide),
    (C6_hasorput_existing_no_write (fun _ => 0) { index := [], datalog := [] }
      [7] (by decide) (by decide)).2 (by decide)⟩

/-! ## Close and Open lifecycle (part_002) -/

/-- The cleanup steps of `DB.Close`, in source order. -/
inductive CloseStep where
  | writeMeta
  | datalogClose
  | indexClose
  | unlock
  deriving DecidableEq

/-- `DB.Close` (part_002): after cancelling and joining the background
worker and taking the exclusive lock, it runs `writeMeta`,
`datalog.close`, `index.close`, `lock.Unlock` — each call guarded by
`if err != nil { return err }`, so the sequence stops at the first
failure.  The outcomes of the four collaborator calls are parameters
(those collaborators live outside src/ and may fail with I/O errors per
the spec); returned are the error `Close` reports and the list of steps
that were attempted. -/
def dbClose (wm dc ic ul : Option Err) : Option Err × List CloseStep :=
  match wm with
  | some e => (some e, [.writeMeta])
  | none =>
    match dc with
    | some e => (some e, [.writeMeta, .datalogClose])
    | none =>
      match ic with
      | some e => (some e, [.writeMeta, .datalogClose, .indexClose])
      | none =>
        match ul with
        | some e => (some e, [.writeMeta, .datalogClose, .indexClose, .unlock])
        | none => (none, [.writeMeta, .datalogClose, .indexClose, .unlock])

/-- C7 counterexample: the claim states that `Close` performs every
cleanup step even when an earlier step fails, so a metadata-write failure
must not prevent the datalog, index and lock from being released.  In the
code every step is followed by an early `return err`: when `writeMeta`
fails, `datalog.close`, `index.close` and `lock.Unlock` are never
attempted. -/
theorem C7_counterexample :
    (dbClose (some .ioFailure) none none none).2 = [CloseStep.writeMeta] ∧
      CloseStep.datalogClose ∉ (dbClose (some .ioFailure) none none none).2 ∧
      CloseStep.indexClose ∉ (dbClose (some .ioFailure) none none none).2 ∧
      CloseStep.unlock ∉ (dbClose (some .ioFailure) none none none).2 := by decide

/-- C7 amended: `Close` runs its cleanup steps in order — write metadata,
close datalog, close index, release the advisory lock — but stops at the
first failing step and returns that error; the steps after the first
failure are not attempted (in particular a metadata-write failure
prevents the datalog, index and lock from being released), and all four
steps run exactly when no step fails. -/
theorem C7_close_stops_at_first_failure :
    (∀ (e : Err) (dc ic ul : Option Err),
        dbClose (some e) dc ic ul = (some e, [CloseStep.writeMeta])) ∧
    (∀ (e : Err) (ic ul : Option Err),
        dbClose none (some e) ic ul =
          (some e, [CloseStep.writeMeta, CloseStep.datalogClose])) ∧
    (∀ (e : Err) (ul : Option Err),
        dbClose none none (some e) ul =
          (some e, [CloseStep.writeMeta, CloseStep.datalogClose, CloseStep.indexClose])) ∧
    (∀ e : Err, dbClose none none none (some e) =
        (some e,
          [CloseStep.writeMeta, CloseStep.datalogClose, CloseStep.indexClose, CloseStep.unlock])) ∧
    dbClose none none none none =
      (none,
        [CloseStep.writeMeta, CloseStep.datalogClose, CloseStep.indexClose, CloseStep.unlock]) :=
  ⟨fun _ _ _ _ => rfl, fun _ _ _ => rfl, fun _ _ => rfl, fun _ => rfl, rfl⟩

/-- On-disk state relevant to the hash seed: the persisted index slot
count and the metadata file (`db.pmt`) content, if the file exists.
Modelled from the spec for the persistence collaborators (`openIndex`,
`readGobFile`/`writeGobFile`): the index file stores the slots and the
metadata file stores `dbMeta{HashSeed}`. -/
structure Disk where
  indexCount : Nat
  meta : Option Nat
  deriving DecidableEq

/-- The hash-seed logic of `Open` (part_002): after opening the index, if
`index.count() == 0` a fresh random seed is generated (`hash.RandSeed`,
modelled by the `freshSeed` parameter), otherwise the persisted seed is
read back from the metadata file via `readMeta` (failing when the file is
missing). -/
def openHashSeed (d : Disk) (freshSeed : Nat) : Except Err Nat :=
  if d.indexCount = 0 then .ok freshSeed
  else
    match d.meta with
    | some s => .ok s
    | none => .error .ioFailure

/-- `DB.writeMeta` as run by `Close`: persists the in-memory seed into the
metadata file. -/
def closeWriteMeta (d : Disk) (seed : Nat) : Disk :=
  { d with meta := some seed }

/-- C9 counterexample: the claim states the hash seed is generated exactly
once, when the store is first created, and read back unchanged on every
subsequent `Open` of a non-empty store directory.  Create a store with
fresh seed 1 and close it without inserting any key: the directory now
holds a metadata file persisting seed 1 (so it is non-empty), yet
reopening finds `index.count() == 0` and generates a fresh seed (here 2)
instead of reading back 1. -/
theorem C9_counterexample :
    openHashSeed { indexCount := 0, meta := none } 1 = .ok 1 ∧
      (closeWriteMeta { indexCount := 0, meta := none } 1).meta ≠ none ∧
      openHashSeed (closeWriteMeta { indexCount := 0, meta := none } 1) 2 = .ok 2 ∧
      openHashSeed (closeWriteMeta { indexCount := 0, meta := none } 1) 2 ≠ .ok 1 := by
  decide

/-- C9 amended: `Open` generates a fresh hash seed whenever it finds an
empty index — at first creation, but equally on any reopen of a store
holding no keys — and reads the persisted seed back unchanged exactly
when the index is non-empty; the seed therefore never changes while the
store contains at least one key. -/
theorem C9_seed_stable_while_nonempty :
    (∀ (d : Disk) (s fresh : Nat), 0 < d.indexCount → d.meta = some s →
        openHashSeed d fresh = .ok s) ∧
    (∀ (d : Disk) (fresh : Nat), d.indexCount = 0 →
        openHashSeed d fresh = .ok fresh) ∧
    (∀ (d : Disk) (seed fresh : Nat), 0 < d.indexCount →
        openHashSeed (closeWriteMeta d seed) fresh = .ok seed) := by
  refine ⟨?_, ?_, ?_⟩
  · intro d s fresh hc hm
    unfold openHashSeed
    rw [if_neg (by omega), hm]
  · intro d fresh hc
    unfold openHashSeed
    rw [if_pos hc]
  · intro d seed fresh hc
    unfold openHashSeed closeWriteMeta
    rw [if_neg (by simpa using Nat.pos_iff_ne_zero.mp hc)]

/-- C9 witness: a store with one key and persisted seed 7 reads seed 7
back on reopen, whatever fresh seed the generator would offer. -/
theorem C9_witness :
    0 < ({ indexCount := 1, meta := some 7 } : Disk).indexCount ∧
      ({ indexCount := 1, meta := some 7 } : Disk).meta = some 7 ∧
      openHashSeed { indexCount := 1, meta := some 7 } 42 = .ok 7 :=
  ⟨by decide, rfl,
    C9_seed_stable_while_nonempty.1 { indexCount := 1, meta := some 7 } 7 42 (by decide) rfl⟩

/-- The error-path structure of `Open` (part_002) after the advisory lock
has been acquired: `clean` is set to `lock.Unlock` and run by the
deferred function unless it is reset to nil immediately before the
successful return.  Each fallible collaborator outcome is a parameter:
backing up non-segment files (attempted only when an existing lock was
taken over), opening the index, opening the datalog, generating or
reading the seed and metadata, and recovery (again only after a stale
lock).  Returns the error `Open` reports together with whether the
deferred cleanup released the lock. -/
def openDB (acquiredExisting : Bool)
    (backup openIdx openDl seedMeta recov : Option Err) : Option Err × Bool :=
  match (if acquiredExisting then backup else none) with
  | some e => (some e, true)
  | none =>
    match openIdx with
    | some e => (some e, true)
    | none =>
      match openDl with
      | some e => (some e, true)
      | none =>
        match seedMeta with
        | some e => (some e, true)
        | none =>
          match (if acquiredExisting then recov else none) with
          | some e => (some e, true)
          | none => (none, false)

/-- C10: on every execution of `Open` in which a step fails after the
advisory lock was acquired (backup, opening the index, opening the
datalog, reading or generating metadata, recovery), the deferred `clean`
call releases the lock before `Open` returns the error; the lock remains
held exactly when `Open` returns without error, since `clean` is set to
nil only on that path. -/
theorem C10_open_releases_lock_on_error :
    ∀ (ae : Bool) (backup openIdx openDl seedMeta recov : Option Err),
      (openDB ae backup openIdx openDl seedMeta recov).2 =
        (openDB ae backup openIdx openDl seedMeta recov).1.isSome := by
  intro ae b oi od sm rc
  unfold openDB
  cases ae <;> cases b <;> cases oi <;> cases od <;> cases sm <;> cases rc <;> rfl
end Pogreb
